import Mathlib

/-!
Verification of the claudifier/boopifier event-notification dispatcher.

This file gives a shallow embedding of the core of the repository:
the event model (`src/event.rs`), the rule-matching engine
(`src/matcher.rs`), the configuration resolver (`src/config.rs`),
the dispatcher (`src/lib.rs`, `process_event`) and the hook response
state machine (`src/hooks/*.rs`, `src/main.rs`), together with
theorems settling the specification claims about them.

External collaborators are modelled as explicit parameters:
* the `regex` crate is a compilation oracle
  `rx : String → Option (String → Bool)` (`none` = pattern failed to
  compile, `some f` = compiled matcher);
* the process environment is `env : String → Option String`;
* the filesystem (for `{{file.PATH}}` secrets) is
  `fc : String → Option String` (keyed by the path as written, tilde
  expansion folded into the map);
* each notification backend's eventual success or failure is
  `run : HandlerConfig → Option String` (`none` = `Ok(())`,
  `some e` = `Err(e)`), and registry membership is
  `reg : String → Bool`.

JSON numbers are modelled as integers (`Int`); no claim involves
floating-point values. Rust `HashMap`s are modelled as association
lists; string indices (Rust byte offsets) are character offsets, which
agree on the ASCII data exercised here.
-/

/-- Model of `serde_json::Value`. -/
inductive Json where
  | null : Json
  | bool (b : Bool) : Json
  | num (n : Int) : Json
  | str (s : String) : Json
  | arr (xs : List Json) : Json
  | obj (fields : List (String × Json)) : Json

mutual

/-- Structural equality on `Json`, modelling `PartialEq` for `serde_json::Value`. -/
def Json.beq : Json → Json → Bool
  | .null, .null => true
  | .bool a, .bool b => a == b
  | .num a, .num b => a == b
  | .str a, .str b => a == b
  | .arr a, .arr b => Json.beqList a b
  | .obj a, .obj b => Json.beqFields a b
  | _, _ => false
termination_by a _ => sizeOf a

/-- Elementwise equality of JSON arrays. -/
def Json.beqList : List Json → List Json → Bool
  | [], [] => true
  | a :: as_, b :: bs => Json.beq a b && Json.beqList as_ bs
  | _, _ => false
termination_by a _ => sizeOf a

/-- Fieldwise equality of JSON objects (association lists). -/
def Json.beqFields : List (String × Json) → List (String × Json) → Bool
  | [], [] => true
  | (k1, v1) :: as_, (k2, v2) :: bs => k1 == k2 && Json.beq v1 v2 && Json.beqFields as_ bs
  | _, _ => false
termination_by a _ => sizeOf a

end

instance : BEq Json := ⟨Json.beq⟩

theorem Json.beq_eq (a b : Json) : (a == b) = Json.beq a b := rfl

/-- Model of `Value::as_str`. -/
def Json.as_str : Json → Option String
  | .str s => some s
  | _ => none

/-- Model of `Value::as_array`. -/
def Json.as_array : Json → Option (List Json)
  | .arr xs => some xs
  | _ => none

/-- Model of `Value::as_object` (yielding the field list). -/
def Json.as_object : Json → Option (List (String × Json))
  | .obj fields => some fields
  | _ => none

/-- Association-list lookup, modelling `HashMap::get` / `Map::get`. -/
def lookupField (fields : List (String × Json)) (k : String) : Option Json :=
  (fields.find? (fun p => p.1 == k)).map (fun p => p.2)

/-- Model of `Value::get` with a string index: a field of an object, `None` otherwise. -/
def Json.getIndex : Json → String → Option Json
  | .obj fields, k => lookupField fields k
  | _, _ => none

/-- Model of `HashMap::contains_key`. -/
def hasKey (fields : List (String × Json)) (k : String) : Bool :=
  (lookupField fields k).isSome

/-- Model of `Event` (`src/event.rs`): a flexible field-to-value mapping. -/
structure Event where
  data : List (String × Json)

/-- Model of `Event::get_str`: `self.data.get(key)?.as_str()`. -/
def Event.get_str (e : Event) (key : String) : Option String :=
  (lookupField e.data key).bind Json.as_str

/-- Character-level model of Rust `str::split` with a character
separator: `"a.b"` splits into `["a","b"]`, `""` into `[""]`, and
leading/trailing separators produce empty segments. -/
def splitOnChar (sep : Char) : List Char → List (List Char)
  | [] => [[]]
  | c :: rest =>
    if c == sep then [] :: splitOnChar sep rest
    else
      match splitOnChar sep rest with
      | [] => [[c]]
      | seg :: segs => (c :: seg) :: segs

/-- The nested traversal inside `Event::get_nested_str`: split the path on
dots and walk `Value::get` from the object built out of `self.data`. -/
def Event.get_nested_value (e : Event) (path : String) : Option Json :=
  ((splitOnChar '.' path.data).map String.mk).foldlM Json.getIndex (Json.obj e.data)

/-- Model of `Event::get_nested_str`: the nested traversal followed by
`as_str`, so only string leaves are ever returned. -/
def Event.get_nested_str (e : Event) (path : String) : Option String :=
  (e.get_nested_value path).bind Json.as_str

/-- Model of `MatchType` (`src/config.rs`). -/
inductive MatchType where
  | Exact : MatchType
  | Regex : MatchType
deriving DecidableEq

/-- Model of `MatchRules` (`src/config.rs`): an untagged union of a simple
field-to-value mapping and a complex rule with `all`/`any`/`not` members. -/
inductive MatchRules where
  | Simple (m : List (String × Json)) : MatchRules
  | Complex (all : Option (List (List (String × Json))))
      (any : Option (List (List (String × Json))))
      (not : Option (List (String × Json))) : MatchRules

mutual

/-- Model of `values_match` (`src/matcher.rs`). `rx` is the regex-crate
oracle: `rx e = none` models `Regex::new(e)` failing to compile, and
`rx e = some f` a compiled pattern with `f a` modelling `re.is_match(a)`. -/
def values_match (rx : String → Option (String → Bool)) (mt : MatchType) :
    Json → Json → Bool
  | .str a, .str e =>
    match mt with
    | .Exact => a == e
    | .Regex => ((rx e).map (fun re => re a)).getD false
  | .num a, .num e => a == e
  | .bool a, .bool e => a == e
  | .arr a, .arr e => e.all (fun ev => a.any (fun av => av == ev))
  | .obj a, .obj e => values_match_fields rx mt a e
  | _, _ => false
termination_by _ e => sizeOf e

/-- The object case of `values_match`: every expected key must be present
in the actual object with a recursively matching value. -/
def values_match_fields (rx : String → Option (String → Bool)) (mt : MatchType)
    (a : List (String × Json)) : List (String × Json) → Bool
  | [] => true
  | (k, ev) :: rest =>
    (match lookupField a k with
     | some av => values_match rx mt av ev
     | none => false) && values_match_fields rx mt a rest
termination_by l => sizeOf l

end

/-- Model of `matches_simple` (`src/matcher.rs`): every (key, expected)
pair must match; keys containing a dot (Rust `key.contains('.')`,
modelled on the key's character list) are resolved through
`get_nested_str`, others through a direct top-level lookup. -/
def matches_simple (rx : String → Option (String → Bool)) (e : Event)
    (rules : List (String × Json)) (mt : MatchType) : Bool :=
  rules.all (fun kv =>
    let actual :=
      if kv.1.data.contains '.' then (e.get_nested_str kv.1).map Json.str
      else lookupField e.data kv.1
    match actual with
    | some a => values_match rx mt a kv.2
    | none => false)

/-- Model of `matches_complex` (`src/matcher.rs`). -/
def matches_complex (rx : String → Option (String → Bool)) (e : Event)
    (all any : Option (List (List (String × Json))))
    (notR : Option (List (String × Json))) (mt : MatchType) : Bool :=
  if all.isNone && any.isNone && notR.isNone then false
  else
    (match all with
     | some allRules => allRules.all (fun r => matches_simple rx e r mt)
     | none => true) &&
    (match any with
     | some anyRules => anyRules.any (fun r => matches_simple rx e r mt)
     | none => true) &&
    (match notR with
     | some notRules => !matches_simple rx e notRules mt
     | none => true)

/-- The `all`/`any` payload extraction performed by `matches` when a
Simple-parsed rule turns out to hold a reserved key: the value under `k`
as an array, keeping only its object elements. -/
def extractRuleList (m : List (String × Json)) (k : String) :
    Option (List (List (String × Json))) :=
  ((lookupField m k).bind Json.as_array).map (fun arr => arr.filterMap Json.as_object)

/-- The `not` payload extraction performed by `matches`: the value under
`k` as an object. -/
def extractRule (m : List (String × Json)) (k : String) :
    Option (List (String × Json)) :=
  (lookupField m k).bind Json.as_object

/-- Model of `matches` (`src/matcher.rs`; `matches` is a Lean keyword, so
the definition is named `matchesRules`): `None` matches everything; a
Simple rule containing one of the reserved keys `any`/`all`/`not` is
re-dispatched to the complex evaluator over the extracted payloads. -/
def matchesRules (rx : String → Option (String → Bool)) (e : Event)
    (rules : Option MatchRules) (mt : MatchType) : Bool :=
  match rules with
  | none => true
  | some (.Simple m) =>
    if hasKey m "any" || hasKey m "all" || hasKey m "not" then
      matches_complex rx e (extractRuleList m "all") (extractRuleList m "any")
        (extractRule m "not") mt
    else
      matches_simple rx e m mt
  | some (.Complex all any notR) => matches_complex rx e all any notR mt

/-- Model of `PermissionDecision` (`src/hooks/mod.rs`). -/
inductive PermissionDecision where
  | Allow : PermissionDecision
  | Deny : PermissionDecision
  | Ask : PermissionDecision
deriving DecidableEq

/-- Model of `InteractiveResponse` (`src/hooks/mod.rs`). -/
structure InteractiveResponse where
  decision : PermissionDecision
  reason : Option String
deriving DecidableEq

/-- Model of `HandlerOutcome` (`src/hooks/mod.rs`). -/
inductive HandlerOutcome where
  | Success : HandlerOutcome
  | Error (msg : String) : HandlerOutcome
  | Interactive (response : InteractiveResponse) : HandlerOutcome
deriving DecidableEq

/-- The decision strings rendered by `PreToolUseHook::generate_response`. -/
def permissionDecisionStr : PermissionDecision → String
  | .Allow => "allow"
  | .Deny => "deny"
  | .Ask => "ask"

/-- The `find_map` scan inside `PreToolUseHook::generate_response`
(`src/hooks/tool_use.rs`): the first `Interactive` outcome, if any. -/
def firstInteractive (outcomes : List HandlerOutcome) : Option InteractiveResponse :=
  outcomes.findSome? (fun o =>
    match o with
    | .Interactive r => some r
    | _ => none)

/-- Model of `PreToolUseHook::generate_response` (`src/hooks/tool_use.rs`):
use the first `Interactive` outcome's decision and reason, defaulting to
`allow` with no reason, and emit the `hookSpecificOutput` object, adding
`permissionDecisionReason` only when a reason is present. -/
def preToolUseGenerateResponse (outcomes : List HandlerOutcome) : Json :=
  let dr : String × Option String :=
    match firstInteractive outcomes with
    | some r => (permissionDecisionStr r.decision, r.reason)
    | none => ("allow", none)
  Json.obj [("hookSpecificOutput", Json.obj
    ([("hookEventName", Json.str "PreToolUse"),
      ("permissionDecision", Json.str dr.1)] ++
     (match dr.2 with
      | some reasonText => [("permissionDecisionReason", Json.str reasonText)]
      | none => [])))]

/-- The hook categories produced by `hook_from_event` (`src/hooks/mod.rs`).
`Stop` remembers the originating event name (`Stop` or `SubagentStop`),
and `PreToolUse` remembers the tool name. -/
inductive HookKind where
  | Stop (hookName : String) : HookKind
  | Notification : HookKind
  | PreToolUse (toolName : String) : HookKind
  | PostToolUse : HookKind
  | PermissionRequest : HookKind
  | UserPromptSubmit : HookKind
  | SessionStart : HookKind
  | SessionEnd : HookKind
  | PreCompact : HookKind
deriving DecidableEq

/-- Model of `hook_from_event` (`src/hooks/mod.rs`): read
`hook_event_name` as a string, substituting `"unknown"` when absent or
not a string, and select the hook category; an unrecognized name is an
error. -/
def hook_from_event (e : Event) : Except String HookKind :=
  let hookEventName := (e.get_str "hook_event_name").getD "unknown"
  if hookEventName == "Stop" || hookEventName == "SubagentStop" then
    .ok (.Stop hookEventName)
  else if hookEventName == "Notification" then .ok .Notification
  else if hookEventName == "PreToolUse" then
    .ok (.PreToolUse ((e.get_str "tool_name").getD "unknown"))
  else if hookEventName == "PostToolUse" then .ok .PostToolUse
  else if hookEventName == "PermissionRequest" then .ok .PermissionRequest
  else if hookEventName == "UserPromptSubmit" then .ok .UserPromptSubmit
  else if hookEventName == "SessionStart" then .ok .SessionStart
  else if hookEventName == "SessionEnd" then .ok .SessionEnd
  else if hookEventName == "PreCompact" then .ok .PreCompact
  else .error ("Unknown hook type: " ++ hookEventName)

/-- The `Hook::generate_response` implementations: every category except
`PreToolUse` returns the empty object (passive observation); `PreToolUse`
synthesizes the permission decision (`src/hooks/*.rs`). -/
def hookGenerateResponse : HookKind → List HandlerOutcome → Json
  | .Stop _, _ => Json.obj []
  | .Notification, _ => Json.obj []
  | .PreToolUse _, outcomes => preToolUseGenerateResponse outcomes
  | .PostToolUse, _ => Json.obj []
  | .PermissionRequest, _ => Json.obj []
  | .UserPromptSubmit, _ => Json.obj []
  | .SessionStart, _ => Json.obj []
  | .SessionEnd, _ => Json.obj []
  | .PreCompact, _ => Json.obj []

/-- Model of `output_hook_error` (`src/main.rs`): the graceful-degrade
object telling the caller to continue, with a warning message. -/
def output_hook_error (errorMessage : String) : Json :=
  Json.obj [("continue", Json.bool true),
    ("systemMessage", Json.str ("Boopifier warning: " ++ errorMessage))]

/-- Model of the response stage of `main` (`src/main.rs`, after the event
has been parsed): determine the hook category; on failure emit the
graceful-degrade object for `Unknown hook: …`; on success emit the
category response over the dispatcher's outcomes. The second component is
the process exit status, which is 0 on every path (`process::exit(0)`,
and plain returns before it). -/
def main_respond (e : Event) (outcomes : List HandlerOutcome) : Json × Nat :=
  match hook_from_event e with
  | .error msg => (output_hook_error ("Unknown hook: " ++ msg), 0)
  | .ok hk => (hookGenerateResponse hk outcomes, 0)

/-- Model of `HandlerConfig` (`src/config.rs`). -/
structure HandlerConfig where
  name : String
  handler_type : String
  match_rules : Option MatchRules
  match_type : MatchType
  config : List (String × Json)

/-- Model of `ProjectOverride` (`src/config.rs`). -/
structure ProjectOverride where
  path_pattern : String
  handlers : List HandlerConfig

/-- Model of `Config` (`src/config.rs`). -/
structure Config where
  handlers : List HandlerConfig
  overrides : Option (List ProjectOverride)

/-- Fuel-indexed core of glob matching over character lists, modelling the
external `glob` crate's `Pattern::matches` under its default options
(`*` matches any sequence, `?` any single character, other characters
literally; the path separator is not treated specially). Character
classes are not used by this repository and are not modelled. The fuel
only forces termination; `globMatches` supplies enough for it never to
run out. -/
def globMatchAux : Nat → List Char → List Char → Bool
  | 0, _, _ => false
  | _ + 1, [], [] => true
  | fuel + 1, '*' :: ps, [] => globMatchAux fuel ps []
  | fuel + 1, '*' :: ps, c :: cs =>
    globMatchAux fuel ps (c :: cs) || globMatchAux fuel ('*' :: ps) cs
  | fuel + 1, '?' :: ps, _ :: cs => globMatchAux fuel ps cs
  | fuel + 1, p :: ps, c :: cs => p == c && globMatchAux fuel ps cs
  | _ + 1, _ :: _, [] => false
  | _ + 1, [], _ :: _ => false

/-- Glob-pattern match of a path, modelling
`glob::Pattern::new(pattern).matches(path)`. -/
def globMatches (pattern path : String) : Bool :=
  globMatchAux (pattern.length + path.length + 1) pattern.data path.data

/-- The scanning loop of `Config::apply_overrides` (`src/config.rs`):
remember the last override whose pattern matches the project path. -/
def applyOverridesLoop (projectPath : String) :
    List ProjectOverride → Option ProjectOverride → Option ProjectOverride
  | [], lastMatch => lastMatch
  | o :: rest, lastMatch =>
    applyOverridesLoop projectPath rest
      (if globMatches o.path_pattern projectPath then some o else lastMatch)

/-- Model of `Config::apply_overrides` (`src/config.rs`): if any override
pattern matches the project path, the last matching override's handlers
completely replace the base handlers; otherwise the config is unchanged. -/
def Config.apply_overrides (c : Config) (projectPath : String) : Config :=
  match c.overrides with
  | none => c
  | some ovs =>
    match applyOverridesLoop projectPath ovs none with
    | some matchedOverride => { c with handlers := matchedOverride.handlers }
    | none => c

/-- The dispatch loop of `process_event` (`src/lib.rs`): walk the
configured handlers in order, skipping non-matching ones; a matching
handler whose type is absent from the registry makes the function return
immediately with just that one error outcome (discarding everything
queued so far); otherwise the handler's own result is queued as one
outcome. `run h = none` models the handler future resolving `Ok(())`,
`run h = some err` models `Err(err)`; `join_all` preserves queue order,
so the accumulator is returned as-is at the end. -/
def processEventLoop (rx : String → Option (String → Bool))
    (run : HandlerConfig → Option String) (reg : String → Bool) (e : Event) :
    List HandlerConfig → List HandlerOutcome → List HandlerOutcome
  | [], acc => acc
  | h :: rest, acc =>
    if matchesRules rx e h.match_rules h.match_type then
      if reg h.handler_type then
        processEventLoop rx run reg e rest
          (acc ++ [match run h with
            | none => HandlerOutcome.Success
            | some err => HandlerOutcome.Error (h.name ++ ": " ++ err)])
      else
        [HandlerOutcome.Error (h.name ++ ": Unknown handler type: " ++ h.handler_type)]
    else
      processEventLoop rx run reg e rest acc

/-- Model of `process_event` (`src/lib.rs`), after the event has been
parsed: the outcome list produced for the configured handlers. -/
def process_event (rx : String → Option (String → Bool))
    (run : HandlerConfig → Option String) (reg : String → Bool) (e : Event)
    (handlers : List HandlerConfig) : List HandlerOutcome :=
  processEventLoop rx run reg e handlers []

/-- Whether `s` starts with `pat`, modelling `str::starts_with` as used by
substring search. -/
def startsWithSub (pat s : List Char) : Bool :=
  match pat, s with
  | [], _ => true
  | _ :: _, [] => false
  | p :: ps, c :: cs => p == c && startsWithSub ps cs

/-- Index of the first occurrence of `pat` in `s`, modelling `str::find`
with a string pattern. -/
def findSubstring (pat : List Char) : List Char → Option Nat
  | [] => if startsWithSub pat [] then some 0 else none
  | c :: t =>
    if startsWithSub pat (c :: t) then some 0
    else (findSubstring pat t).map (fun i => i + 1)

/-- Fuel-indexed core of `str::replace`: replace every non-overlapping
occurrence of `pat`, left to right, by `rep`. The fuel only forces
termination; `replaceAll` supplies the input length, which always
suffices because each step consumes at least one character. -/
def replaceAllAux (pat rep : List Char) : Nat → List Char → List Char
  | 0, s => s
  | _ + 1, [] => []
  | fuel + 1, c :: rest =>
    if startsWithSub pat (c :: rest) && !pat.isEmpty then
      rep ++ replaceAllAux pat rep fuel (rest.drop (pat.length - 1))
    else
      c :: replaceAllAux pat rep fuel rest

/-- Model of `str::replace`: all occurrences of `pat` in `s` replaced by `rep`. -/
def replaceAll (s pat rep : List Char) : List Char :=
  replaceAllAux pat rep s.length s

/-- The literal `{{env.` marker scanned for by `resolve_secret_string`. -/
def envMarker : String := "\x7b\x7benv."

/-- The literal `{{file.` marker scanned for by `resolve_secret_string`. -/
def fileMarker : String := "\x7b\x7bfile."

/-- The literal `}}` closing marker scanned for by `resolve_secret_string`. -/
def closeMarker : String := "\x7d\x7d"

/-- The environment-variable pass of `resolve_secret_string`
(`src/config.rs`): find the first `{{env.` marker and the first `}}`
after it; the name in between is looked up in the environment — a missing
variable is an error, otherwise every occurrence of the full placeholder
is replaced by the variable's value. A marker with no closing `}}` is
left untouched. -/
def resolveEnvPass (env : String → Option String) (result : List Char) :
    Except String (List Char) :=
  match findSubstring envMarker.data result with
  | some start =>
    match findSubstring closeMarker.data (result.drop start) with
    | some endRel =>
      let varName := String.mk ((result.drop (start + 6)).take (endRel - 6))
      match env varName with
      | none => .error ("Environment variable not found: " ++ varName)
      | some v =>
        .ok (replaceAll result (envMarker.data ++ varName.data ++ closeMarker.data) v.data)
    | none => .ok result
  | none => .ok result

/-- The file pass of `resolve_secret_string` (`src/config.rs`): find the
first `{{file.` marker and the first `}}` after it; the path in between
is read through the filesystem oracle `fc` — an unreadable file is an
error (the io error detail carried by the Rust message is abstracted),
otherwise the whitespace-trimmed content replaces every occurrence of the
full placeholder. -/
def resolveFilePass (fc : String → Option String) (result : List Char) :
    Except String (List Char) :=
  match findSubstring fileMarker.data result with
  | some start =>
    match findSubstring closeMarker.data (result.drop start) with
    | some endRel =>
      let filePath := String.mk ((result.drop (start + 7)).take (endRel - 7))
      match fc filePath with
      | none => .error ("Failed to read file: " ++ filePath)
      | some content =>
        .ok (replaceAll result (fileMarker.data ++ filePath.data ++ closeMarker.data)
          content.trim.data)
    | none => .ok result
  | none => .ok result

/-- Model of `Config::resolve_secret_string` (`src/config.rs`): the
environment pass followed by the file pass, either failure aborting. -/
def resolve_secret_string (env fc : String → Option String) (s : String) :
    Except String String :=
  match resolveEnvPass env s.data with
  | .error e => .error e
  | .ok r1 =>
    match resolveFilePass fc r1 with
    | .error e => .error e
    | .ok r2 => .ok (String.mk r2)

/-- The inner loop of `Config::resolve_secrets` over one handler's config
mapping: every string-typed value goes through `resolve_secret_string`,
other values are untouched; the first failure (the Rust `?` operator)
aborts the whole resolution. -/
def resolve_config_values (env fc : String → Option String) :
    List (String × Json) → Except String (List (String × Json))
  | [] => .ok []
  | (k, v) :: rest =>
    match v with
    | Json.str s =>
      match resolve_secret_string env fc s with
      | .error e => .error e
      | .ok r =>
        match resolve_config_values env fc rest with
        | .error e => .error e
        | .ok rest' => .ok ((k, Json.str r) :: rest')
    | other =>
      match resolve_config_values env fc rest with
      | .error e => .error e
      | .ok rest' => .ok ((k, other) :: rest')

/-- Secret resolution for one handler's configuration mapping. -/
def resolve_handler_secrets (env fc : String → Option String)
    (h : HandlerConfig) : Except String HandlerConfig :=
  match resolve_config_values env fc h.config with
  | .error e => .error e
  | .ok cfg => .ok { h with config := cfg }

/-- The loop of `Config::resolve_secrets` over a handler list. -/
def resolve_handlers_secrets (env fc : String → Option String) :
    List HandlerConfig → Except String (List HandlerConfig)
  | [] => .ok []
  | h :: rest =>
    match resolve_handler_secrets env fc h with
    | .error e => .error e
    | .ok h' =>
      match resolve_handlers_secrets env fc rest with
      | .error e => .error e
      | .ok rest' => .ok (h' :: rest')

/-- The loop of `Config::resolve_secrets` over the override list. -/
def resolve_overrides_secrets (env fc : String → Option String) :
    List ProjectOverride → Except String (List ProjectOverride)
  | [] => .ok []
  | o :: rest =>
    match resolve_handlers_secrets env fc o.handlers with
    | .error e => .error e
    | .ok hs =>
      match resolve_overrides_secrets env fc rest with
      | .error e => .error e
      | .ok rest' => .ok ({ o with handlers := hs } :: rest')

/-- Secret resolution over the optional override list. -/
def resolve_overrides_opt (env fc : String → Option String) :
    Option (List ProjectOverride) → Except String (Option (List ProjectOverride))
  | none => .ok none
  | some ovs =>
    match resolve_overrides_secrets env fc ovs with
    | .error e => .error e
    | .ok ovs' => .ok (some ovs')

/-- Model of `Config::resolve_secrets` (`src/config.rs`): resolve secrets
in every handler's configuration and in every override's handlers; any
failure fails the whole resolution (and hence `Config::load`). -/
def Config.resolve_secrets (env fc : String → Option String) (c : Config) :
    Except String Config :=
  match resolve_handlers_secrets env fc c.handlers with
  | .error e => .error e
  | .ok handlers =>
    match resolve_overrides_opt env fc c.overrides with
    | .error e => .error e
    | .ok overrides => .ok { c with handlers := handlers, overrides := overrides }

/-- A regex oracle on which every pattern fails to compile. -/
def rxNone : String → Option (String → Bool) := fun _ => none

/-- A regex oracle on which every pattern compiles, matching exactly the
strings equal to the pattern. -/
def rxEq : String → Option (String → Bool) := fun p => some (fun s => p == s)

/-- Claim C6: for every event and match type, matching with no rule
returns true, whereas a Complex rule whose `all`, `any` and `not` members
are all absent returns false. -/
theorem claim_c6_no_rule_true_empty_complex_false
    (rx : String → Option (String → Bool)) (e : Event) (mt : MatchType) :
    matchesRules rx e none mt = true ∧
    matchesRules rx e (some (.Complex none none none)) mt = false :=
  ⟨rfl, rfl⟩

/-- Claim C7: in Regex mode, an expected string whose pattern fails to
compile never matches (the comparison returns false rather than
propagating a failure), and a compiling pattern matches exactly when the
compiled matcher accepts the actual string. -/
theorem claim_c7_regex_invalid_pattern_never_matches
    (rx : String → Option (String → Bool)) (a e : String) :
    (rx e = none → values_match rx .Regex (.str a) (.str e) = false) ∧
    (∀ f, rx e = some f → values_match rx .Regex (.str a) (.str e) = f a) := by
  constructor
  · intro h
    simp [values_match, h]
  · intro f h
    simp [values_match, h]

/-- Witness for C7 at a concrete failing pattern and a concrete compiling
pattern. -/
theorem claim_c7_witness :
    values_match rxNone .Regex (.str "abc") (.str "(") = false ∧
    values_match rxEq .Regex (.str "abc") (.str "abc") = true := by
  constructor
  · exact (claim_c7_regex_invalid_pattern_never_matches rxNone "abc" "(").1 rfl
  · have h := (claim_c7_regex_invalid_pattern_never_matches rxEq "abc" "abc").2
      (fun s => "abc" == s) rfl
    rw [h]
    decide

/-- Claim C8: comparing JSON arrays is an order-independent subset test —
the expected array matches exactly when each of its elements equals some
element of the actual array — and on the spec's example, expected
`["a"]` matches actual `["a","b"]` but not actual `["b"]`. -/
theorem claim_c8_array_subset
    (rx : String → Option (String → Bool)) (mt : MatchType) (a e : List Json) :
    (values_match rx mt (.arr a) (.arr e) = true ↔
      ∀ ev ∈ e, ∃ av ∈ a, (av == ev) = true) ∧
    values_match rx mt (.arr [.str "a", .str "b"]) (.arr [.str "a"]) = true ∧
    values_match rx mt (.arr [.str "b"]) (.arr [.str "a"]) = false := by
  refine ⟨?_, ?_, ?_⟩
  · simp [values_match, List.all_eq_true, List.any_eq_true]
  · simp [values_match, Json.beq_eq, Json.beq]
  · simp [values_match, Json.beq_eq, Json.beq]

/-- Claim C2: a rule that parsed as Simple but contains one of the
reserved keys `any`/`all`/`not` evaluates exactly like the Complex rule
obtained by extracting those payloads from the mapping. -/
theorem claim_c2_reserved_keys_normalize_to_complex
    (rx : String → Option (String → Bool)) (e : Event) (mt : MatchType)
    (m : List (String × Json))
    (h : (hasKey m "any" || hasKey m "all" || hasKey m "not") = true) :
    matchesRules rx e (some (.Simple m)) mt =
      matchesRules rx e
        (some (.Complex (extractRuleList m "all") (extractRuleList m "any")
          (extractRule m "not"))) mt := by
  simp [matchesRules, h]

/-- The event of end-to-end scenario 4. -/
def eventNotification : Event := ⟨[("hook_event_name", Json.str "Notification")]⟩

/-- The untyped `any` rule object of end-to-end scenario 4, as parsed into
the Simple shape. -/
def ruleAnyMap : List (String × Json) :=
  [("any", Json.arr [Json.obj [("hook_event_name", Json.str "Notification")],
    Json.obj [("hook_event_name", Json.str "Stop")]])]

/-- Witness for C2 on end-to-end scenario 4: the `any` rule submitted as
an untyped Simple map evaluates like the extracted Complex rule, and
matches the Notification event. -/
theorem claim_c2_witness :
    (hasKey ruleAnyMap "any" || hasKey ruleAnyMap "all" || hasKey ruleAnyMap "not") = true ∧
    matchesRules rxNone eventNotification (some (.Simple ruleAnyMap)) .Exact =
      matchesRules rxNone eventNotification
        (some (.Complex (extractRuleList ruleAnyMap "all")
          (extractRuleList ruleAnyMap "any") (extractRule ruleAnyMap "not"))) .Exact ∧
    matchesRules rxNone eventNotification (some (.Simple ruleAnyMap)) .Exact = true := by
  refine ⟨by decide, claim_c2_reserved_keys_normalize_to_complex rxNone eventNotification
    .Exact ruleAnyMap (by decide), ?_⟩
  simp [matchesRules, ruleAnyMap, eventNotification, hasKey, lookupField,
    matches_complex, extractRuleList, extractRule, Json.as_array, Json.as_object,
    matches_simple, Event.get_nested_str, Event.get_nested_value, values_match]

/-- Claim C9: a Simple-rule key containing a dot is resolved through
`get_nested_str`, which only returns string leaves; a non-string nested
value therefore never matches, whatever the expected value is — in
particular even when the expected value equals the nested actual value —
whereas an undotted key compares the actual value of any JSON type via
`values_match`. -/
theorem claim_c9_dotted_paths_only_match_string_leaves
    (rx : String → Option (String → Bool)) (mt : MatchType) (e : Event)
    (key : String) (v : Json)
    (hdot : key.data.contains '.' = true)
    (hv : e.get_nested_value key = some v)
    (hns : v.as_str = none) :
    (∀ expected, matches_simple rx e [(key, expected)] mt = false) ∧
    (∀ k2 v2, k2.data.contains '.' = false → lookupField e.data k2 = some v2 →
      ∀ expected, matches_simple rx e [(k2, expected)] mt = values_match rx mt v2 expected) := by
  constructor
  · intro expected
    have hdot' : '.' ∈ key.data := by simpa using hdot
    simp [matches_simple, Event.get_nested_str, hdot', hv, hns]
  · intro k2 v2 hk2 hv2 expected
    have hk2' : '.' ∉ k2.data := by simpa using hk2
    simp [matches_simple, hk2', hv2]

/-- An event with a numeric nested field and the same number at top level. -/
def eventNested : Event :=
  ⟨[("count", Json.num 3), ("tool", Json.obj [("count", Json.num 3)])]⟩

/-- Witness for C9: the rule `tool.count = 3` fails against an event whose
`tool.count` is the number 3, while the undotted rule `count = 3`
matches the same number at top level. -/
theorem claim_c9_witness :
    matches_simple rxNone eventNested [("tool.count", Json.num 3)] .Exact = false ∧
    matches_simple rxNone eventNested [("count", Json.num 3)] .Exact = true := by
  have h := claim_c9_dotted_paths_only_match_string_leaves rxNone .Exact eventNested
    "tool.count" (Json.num 3) (by decide) rfl rfl
  refine ⟨h.1 (Json.num 3), ?_⟩
  rw [h.2 "count" (Json.num 3) (by decide) rfl (Json.num 3)]
  simp [values_match]

/-- A handler-run oracle on which every handler future resolves `Ok(())`. -/
def runOk : HandlerConfig → Option String := fun _ => none

/-- A registry containing only the `desktop` handler type. -/
def regDesktopOnly : String → Bool := fun t => t == "desktop"

/-- A configured handler of an unknown type that matches every event. -/
def hUnknown : HandlerConfig := ⟨"h1", "bogus", none, .Exact, []⟩

/-- A configured handler of a known type that matches every event. -/
def hDesktop : HandlerConfig := ⟨"h2", "desktop", none, .Exact, []⟩

/-- Claim C1 (failing input): with two always-matching handlers, one of an
unknown type and one of a known type, `process_event` returns only the
single error outcome for the unknown type — the known-type handler
contributes no outcome, whichever side of the unknown one it is
configured on; when the unknown type comes second, even the already
queued outcome of the first handler is discarded. The claim's
isolate-and-continue behavior would instead yield one outcome per
matching handler. -/
theorem claim_c1_unknown_type_aborts_batch :
    process_event rxNone runOk regDesktopOnly ⟨[]⟩ [hUnknown, hDesktop] =
      [HandlerOutcome.Error "h1: Unknown handler type: bogus"] ∧
    process_event rxNone runOk regDesktopOnly ⟨[]⟩ [hDesktop, hUnknown] =
      [HandlerOutcome.Error "h1: Unknown handler type: bogus"] :=
  ⟨rfl, rfl⟩

/-- Claim C10: an event whose `hook_event_name` is absent or not a string
reads as the name `unknown`, which fails hook categorization with the
unknown-hook error; the process then emits the graceful-degrade object
(`continue: true` plus a warning `systemMessage`) instead of a category
response and exits with status 0. -/
theorem claim_c10_missing_hook_name_degrades_gracefully
    (e : Event) (outcomes : List HandlerOutcome)
    (h : e.get_str "hook_event_name" = none) :
    hook_from_event e = .error "Unknown hook type: unknown" ∧
    main_respond e outcomes = (output_hook_error "Unknown hook: Unknown hook type: unknown", 0) ∧
    output_hook_error "Unknown hook: Unknown hook type: unknown" =
      Json.obj [("continue", Json.bool true),
        ("systemMessage",
          Json.str "Boopifier warning: Unknown hook: Unknown hook type: unknown")] := by
  have h1 : hook_from_event e = .error "Unknown hook type: unknown" := by
    simp [hook_from_event, h]
  refine ⟨h1, ?_, rfl⟩
  simp [main_respond, h1]

/-- An event whose `hook_event_name` is a number rather than a string. -/
def eventNumericName : Event := ⟨[("hook_event_name", Json.num 5)]⟩

/-- Witness for C10 at an event carrying a non-string `hook_event_name`. -/
theorem claim_c10_witness :
    main_respond eventNumericName [] =
      (output_hook_error "Unknown hook: Unknown hook type: unknown", 0) :=
  (claim_c10_missing_hook_name_degrades_gracefully eventNumericName [] rfl).2.1

/-- The last override in the list whose pattern matches the path, phrased
as the specification words it (scan the ordered list, prefer later
matches). -/
def lastMatchingOverride (p : String) : List ProjectOverride → Option ProjectOverride
  | [] => none
  | o :: rest =>
    match lastMatchingOverride p rest with
    | some m => some m
    | none => if globMatches o.path_pattern p then some o else none

/-- The override-scanning loop returns the last matching override, falling
back to the accumulator. -/
theorem applyOverridesLoop_eq_lastMatching (p : String) (l : List ProjectOverride)
    (acc : Option ProjectOverride) :
    applyOverridesLoop p l acc =
      match lastMatchingOverride p l with
      | some m => some m
      | none => acc := by
  induction l generalizing acc with
  | nil => rfl
  | cons o rest ih =>
    simp only [applyOverridesLoop, lastMatchingOverride, ih]
    cases lastMatchingOverride p rest with
    | some m => rfl
    | none =>
      by_cases hg : globMatches o.path_pattern p
      · simp [hg]
      · simp [hg]

/-- Claim C4: override resolution selects the last override whose glob
pattern matches the active path and replaces the handler list with that
override's handlers verbatim; with no matching override the base handler
list is unchanged. -/
theorem claim_c4_last_matching_override_replaces_handlers (c : Config) (p : String) :
    (c.apply_overrides p).handlers =
      match lastMatchingOverride p (c.overrides.getD []) with
      | some o => o.handlers
      | none => c.handlers := by
  cases hov : c.overrides with
  | none => simp [Config.apply_overrides, hov, lastMatchingOverride]
  | some ovs =>
    simp only [Config.apply_overrides, hov, Option.getD_some,
      applyOverridesLoop_eq_lastMatching]
    cases lastMatchingOverride p ovs with
    | some m => rfl
    | none => rfl

/-- The base handler list of the override-resolution scenario. -/
def hBase : HandlerConfig := ⟨"base", "desktop", none, .Exact, []⟩

/-- The handler list of the general `/work/*` override. -/
def hWorkGeneral : HandlerConfig := ⟨"work-general", "sound", none, .Exact, []⟩

/-- The handler list of the specific `/work/special` override. -/
def hWorkSpecial : HandlerConfig := ⟨"work-special", "webhook", none, .Exact, []⟩

/-- The spec's override scenario: base handlers plus overrides for
`/work/*` and then `/work/special`. -/
def cfgOverrideScenario : Config :=
  ⟨[hBase], some [⟨"/work/*", [hWorkGeneral]⟩, ⟨"/work/special", [hWorkSpecial]⟩]⟩

/-- Witness-style instantiation of C4 on the spec's scenario: for path
`/work/special` both patterns match and the later override's handlers
replace the list exactly (no union with the earlier override or the base
list); for a path matching no pattern the base list is unchanged. -/
theorem claim_c4_scenario :
    (cfgOverrideScenario.apply_overrides "/work/special").handlers = [hWorkSpecial] ∧
    (cfgOverrideScenario.apply_overrides "/home/other").handlers = [hBase] :=
  ⟨rfl, rfl⟩

/-- Scanning a list whose prefix holds no Interactive outcome finds the
Interactive outcome that follows the prefix. -/
theorem firstInteractive_append (pre : List HandlerOutcome) (r : InteractiveResponse)
    (post : List HandlerOutcome)
    (hpre : ∀ o ∈ pre, ∀ r', o ≠ HandlerOutcome.Interactive r') :
    firstInteractive (pre ++ HandlerOutcome.Interactive r :: post) = some r := by
  induction pre with
  | nil => simp [firstInteractive, List.findSome?_cons]
  | cons o rest ih =>
    have ho := hpre o (List.mem_cons_self o rest)
    have hrest : ∀ o' ∈ rest, ∀ r', o' ≠ HandlerOutcome.Interactive r' :=
      fun o' ho' => hpre o' (List.mem_cons_of_mem o ho')
    cases o with
    | Success =>
      simpa [firstInteractive, List.findSome?_cons] using ih hrest
    | Error msg =>
      simpa [firstInteractive, List.findSome?_cons] using ih hrest
    | Interactive r' => exact absurd rfl (ho r')

/-- Scanning a list with no Interactive outcome finds nothing. -/
theorem firstInteractive_none (outcomes : List HandlerOutcome)
    (h : ∀ o ∈ outcomes, ∀ r', o ≠ HandlerOutcome.Interactive r') :
    firstInteractive outcomes = none := by
  induction outcomes with
  | nil => rfl
  | cons o rest ih =>
    have ho := h o (List.mem_cons_self o rest)
    have hrest : ∀ o' ∈ rest, ∀ r', o' ≠ HandlerOutcome.Interactive r' :=
      fun o' ho' => h o' (List.mem_cons_of_mem o ho')
    cases o with
    | Success => simpa [firstInteractive, List.findSome?_cons] using ih hrest
    | Error msg => simpa [firstInteractive, List.findSome?_cons] using ih hrest
    | Interactive r' => exact absurd rfl (ho r')

/-- Claim C3: the PreToolUse response carries the decision and optional
reason of the first Interactive outcome when one exists — the decision
rendered as `allow`/`deny`/`ask` and the reason copied verbatim, the
reason field omitted when the reason is absent — and carries decision
`allow` with no reason field when no Interactive outcome exists. -/
theorem claim_c3_pre_tool_use_first_interactive (outcomes : List HandlerOutcome) :
    (∀ pre r post, outcomes = pre ++ HandlerOutcome.Interactive r :: post →
      (∀ o ∈ pre, ∀ r', o ≠ HandlerOutcome.Interactive r') →
      ∃ inner, Json.getIndex (preToolUseGenerateResponse outcomes) "hookSpecificOutput" =
          some inner ∧
        Json.getIndex inner "permissionDecision" =
          some (Json.str (permissionDecisionStr r.decision)) ∧
        Json.getIndex inner "permissionDecisionReason" = r.reason.map Json.str) ∧
    ((∀ o ∈ outcomes, ∀ r', o ≠ HandlerOutcome.Interactive r') →
      ∃ inner, Json.getIndex (preToolUseGenerateResponse outcomes) "hookSpecificOutput" =
          some inner ∧
        Json.getIndex inner "permissionDecision" = some (Json.str "allow") ∧
        Json.getIndex inner "permissionDecisionReason" = none) := by
  constructor
  · intro pre r post houtcomes hpre
    have hfi : firstInteractive outcomes = some r := by
      rw [houtcomes]; exact firstInteractive_append pre r post hpre
    refine ⟨Json.obj ([("hookEventName", Json.str "PreToolUse"),
        ("permissionDecision", Json.str (permissionDecisionStr r.decision))] ++
       (match r.reason with
        | some t => [("permissionDecisionReason", Json.str t)]
        | none => [])), ?_, ?_, ?_⟩
    · simp [preToolUseGenerateResponse, hfi, Json.getIndex, lookupField]
    · cases r.reason with
      | none => simp [Json.getIndex, lookupField]
      | some t => simp [Json.getIndex, lookupField]
    · cases hrsn : r.reason with
      | none => simp [hrsn, Json.getIndex, lookupField]
      | some t => simp [hrsn, Json.getIndex, lookupField]
  · intro hnone
    have hfi : firstInteractive outcomes = none := firstInteractive_none outcomes hnone
    refine ⟨Json.obj [("hookEventName", Json.str "PreToolUse"),
        ("permissionDecision", Json.str "allow")], ?_, ?_, ?_⟩
    · simp [preToolUseGenerateResponse, hfi, Json.getIndex, lookupField]
    · simp [Json.getIndex, lookupField]
    · simp [Json.getIndex, lookupField]

/-- Witness for C3: with outcomes `[Success, Interactive(Deny,"User
denied"), Interactive(Allow,-)]` the response carries `deny` and the
first Interactive outcome's reason; with outcomes `[Success, Error]` it
carries `allow` and no reason field. -/
theorem claim_c3_witness :
    (∃ inner, Json.getIndex (preToolUseGenerateResponse
          [HandlerOutcome.Success,
           HandlerOutcome.Interactive ⟨PermissionDecision.Deny, some "User denied"⟩,
           HandlerOutcome.Interactive ⟨PermissionDecision.Allow, none⟩])
          "hookSpecificOutput" = some inner ∧
      Json.getIndex inner "permissionDecision" = some (Json.str "deny") ∧
      Json.getIndex inner "permissionDecisionReason" = some (Json.str "User denied")) ∧
    (∃ inner, Json.getIndex (preToolUseGenerateResponse
          [HandlerOutcome.Success, HandlerOutcome.Error "boom"])
          "hookSpecificOutput" = some inner ∧
      Json.getIndex inner "permissionDecision" = some (Json.str "allow") ∧
      Json.getIndex inner "permissionDecisionReason" = none) := by
  constructor
  · have h1 := (claim_c3_pre_tool_use_first_interactive
        [HandlerOutcome.Success,
         HandlerOutcome.Interactive ⟨PermissionDecision.Deny, some "User denied"⟩,
         HandlerOutcome.Interactive ⟨PermissionDecision.Allow, none⟩]).1
      [HandlerOutcome.Success] ⟨PermissionDecision.Deny, some "User denied"⟩
      [HandlerOutcome.Interactive ⟨PermissionDecision.Allow, none⟩] rfl (by simp)
    exact h1
  · have h2 := (claim_c3_pre_tool_use_first_interactive
        [HandlerOutcome.Success, HandlerOutcome.Error "boom"]).2 (by simp)
    exact h2

/-- A string starting with `p1 ++ p2` starts with `p1`. -/
theorem startsWithSub_of_append (p1 p2 s : List Char)
    (h : startsWithSub (p1 ++ p2) s = true) : startsWithSub p1 s = true := by
  induction p1 generalizing s with
  | nil => rfl
  | cons p ps ih =>
    cases s with
    | nil => simp [startsWithSub] at h
    | cons c cs =>
      simp only [List.cons_append, startsWithSub, Bool.and_eq_true] at h ⊢
      exact ⟨h.1, ih cs h.2⟩

/-- Every list starts with itself, whatever follows. -/
theorem startsWithSub_self_append (pat t : List Char) :
    startsWithSub pat (pat ++ t) = true := by
  induction pat with
  | nil => rfl
  | cons p ps ih => simpa [startsWithSub] using ih

/-- A found substring index is a real occurrence, and the first one. -/
theorem findSubstring_spec (pat s : List Char) (i : Nat)
    (h : findSubstring pat s = some i) :
    startsWithSub pat (s.drop i) = true ∧
      ∀ j < i, startsWithSub pat (s.drop j) = false := by
  induction s generalizing i with
  | nil =>
    by_cases hsw : startsWithSub pat [] = true
    · simp [findSubstring, hsw] at h
      subst h
      exact ⟨hsw, by omega⟩
    · simp [findSubstring, hsw] at h
  | cons c t ih =>
    by_cases hsw : startsWithSub pat (c :: t) = true
    · simp [findSubstring, hsw] at h
      subst h
      exact ⟨hsw, by omega⟩
    · simp only [findSubstring, hsw, if_false, Bool.false_eq_true, Option.map_eq_some'] at h
      obtain ⟨i', hi', rfl⟩ := h
      obtain ⟨h1, h2⟩ := ih i' hi'
      refine ⟨h1, ?_⟩
      intro j hj
      cases j with
      | zero => simpa using Bool.eq_false_iff.mpr hsw
      | succ j' => exact h2 j' (by omega)

/-- When the search fails there is no occurrence at any index. -/
theorem findSubstring_none_spec (pat s : List Char)
    (h : findSubstring pat s = none) :
    ∀ j, startsWithSub pat (s.drop j) = false := by
  induction s with
  | nil =>
    intro j
    by_cases hsw : startsWithSub pat [] = true
    · simp [findSubstring, hsw] at h
    · simpa using Bool.eq_false_iff.mpr hsw
  | cons c t ih =>
    intro j
    by_cases hsw : startsWithSub pat (c :: t) = true
    · simp [findSubstring, hsw] at h
    · simp only [findSubstring, hsw, if_false, Bool.false_eq_true, Option.map_eq_none'] at h
      cases j with
      | zero => simpa using Bool.eq_false_iff.mpr hsw
      | succ j' => exact ih h j'

/-- Replacement walks over a match-free prefix untouched. -/
theorem replaceAllAux_append (pat rep a rest : List Char) (fuel : Nat)
    (h : ∀ j < a.length, startsWithSub pat ((a ++ rest).drop j) = false) :
    replaceAllAux pat rep fuel (a ++ rest) =
      a ++ replaceAllAux pat rep (fuel - a.length) rest := by
  induction a generalizing fuel with
  | nil => simp
  | cons c a' ih =>
    cases fuel with
    | zero => simp [replaceAllAux]
    | succ fuel' =>
      have h0 : startsWithSub pat (c :: (a' ++ rest)) = false := by
        simpa using h 0 (by simp)
      have hshift : ∀ j < a'.length, startsWithSub pat ((a' ++ rest).drop j) = false := by
        intro j hj
        simpa using h (j + 1) (by simp; omega)
      have hfuel : fuel' + 1 - (c :: a').length = fuel' - a'.length := by
        simp [Nat.succ_sub_succ]
      rw [hfuel, List.cons_append]
      simp only [replaceAllAux, List.append_eq, h0, Bool.false_and, Bool.false_eq_true,
        if_false]
      rw [ih fuel' hshift]
      simp

/-- Replacement at an occurrence substitutes and continues after it. -/
theorem replaceAllAux_match (pat rep b : List Char) (fuel : Nat) (hp : pat ≠ []) :
    replaceAllAux pat rep (fuel + 1) (pat ++ b) = rep ++ replaceAllAux pat rep fuel b := by
  obtain ⟨p, ps, rfl⟩ : ∃ p ps, pat = p :: ps := by
    cases pat with
    | nil => exact absurd rfl hp
    | cons p ps => exact ⟨p, ps, rfl⟩
  have hsw : startsWithSub (p :: ps) ((p :: ps) ++ b) = true :=
    startsWithSub_self_append (p :: ps) b
  rw [List.cons_append]
  simp only [replaceAllAux, List.append_eq]
  rw [List.cons_append] at hsw
  simp only [hsw, List.isEmpty_cons, Bool.not_false, Bool.and_true, if_true]
  congr 1
  simp [List.drop_left']

/-- Replacement leaves an occurrence-free string unchanged. -/
theorem replaceAllAux_no_occurrence (pat rep s : List Char)
    (h : ∀ j, startsWithSub pat (s.drop j) = false) (fuel : Nat) :
    replaceAllAux pat rep fuel s = s := by
  induction s generalizing fuel with
  | nil => cases fuel <;> rfl
  | cons c t ih =>
    cases fuel with
    | zero => rfl
    | succ fuel' =>
      have h0 : startsWithSub pat (c :: t) = false := by simpa using h 0
      have hshift : ∀ j, startsWithSub pat (t.drop j) = false := fun j => by
        simpa using h (j + 1)
      simp only [replaceAllAux, h0, Bool.false_and, Bool.false_eq_true, if_false]
      rw [ih hshift fuel']

/-- Replacing a pattern that occurs exactly once — first at the end of
the prefix `a` and nowhere in the suffix `b` — yields `a ++ rep ++ b`. -/
theorem replaceAll_single (pat rep a b : List Char) (hp : pat ≠ [])
    (ha : ∀ j < a.length, startsWithSub pat ((a ++ (pat ++ b)).drop j) = false)
    (hb : findSubstring pat b = none) :
    replaceAll (a ++ (pat ++ b)) pat rep = a ++ (rep ++ b) := by
  rw [replaceAll, replaceAllAux_append pat rep a (pat ++ b) _ ha]
  have hfuel : (a ++ (pat ++ b)).length - a.length = pat.length + b.length := by
    simp [List.length_append]
  rw [hfuel]
  obtain ⟨p, ps, rfl⟩ : ∃ p ps, pat = p :: ps := by
    cases pat with
    | nil => exact absurd rfl hp
    | cons p ps => exact ⟨p, ps, rfl⟩
  have hfuel2 : (p :: ps).length + b.length = (ps.length + b.length) + 1 := by
    simp [List.length_cons]; omega
  rw [hfuel2, replaceAllAux_match (p :: ps) rep b (ps.length + b.length) hp]
  rw [replaceAllAux_no_occurrence (p :: ps) rep b (findSubstring_none_spec _ _ hb)]

/-- The full `{{env.NAME}}` placeholder for a variable name. -/
def envPlaceholder (name : String) : String := envMarker ++ name ++ closeMarker

/-- Extracting the variable name between the markers recovers the name. -/
theorem envVarName_extract (a name b : String) :
    (((a ++ envPlaceholder name ++ b).data.drop (a.length + 6)).take
      (6 + name.length - 6)) = name.data := by
  have hassoc : (a ++ envPlaceholder name ++ b).data =
      (a.data ++ envMarker.data) ++ (name.data ++ (closeMarker.data ++ b.data)) := by
    simp [envPlaceholder, String.data_append]
  rw [hassoc]
  have hlen : (a.data ++ envMarker.data).length = a.length + 6 := by
    simp [List.length_append]
    rfl
  rw [List.drop_left' hlen]
  have h6 : 6 + name.length - 6 = name.data.length := by
    have hn : name.length = name.data.length := rfl
    omega
  rw [h6, List.take_left]

/-- The environment pass at a string holding one `{{env.NAME}}`
placeholder: the placeholder's variable is looked up; a bound variable
substitutes its value, an unbound one is the fatal error. -/
theorem resolveEnvPass_single (env : String → Option String) (a name b : String)
    (h1 : findSubstring envMarker.data (a ++ envPlaceholder name ++ b).data = some a.length)
    (h2 : findSubstring closeMarker.data
        ((a ++ envPlaceholder name ++ b).data.drop a.length) = some (6 + name.length))
    (hbno : findSubstring (envPlaceholder name).data b.data = none) :
    (∀ v, env name = some v →
      resolveEnvPass env (a ++ envPlaceholder name ++ b).data = .ok (a ++ v ++ b).data) ∧
    (env name = none →
      resolveEnvPass env (a ++ envPlaceholder name ++ b).data =
        .error ("Environment variable not found: " ++ name)) := by
  have hvar : String.mk (((a ++ envPlaceholder name ++ b).data.drop (a.length + 6)).take
      (6 + name.length - 6)) = name := by
    rw [envVarName_extract]
  have hs : (a ++ envPlaceholder name ++ b).data =
      a.data ++ ((envPlaceholder name).data ++ b.data) := by
    simp [String.data_append]
  constructor
  · intro v henv
    have hrepl : replaceAll (a ++ envPlaceholder name ++ b).data
        (envMarker.data ++ name.data ++ closeMarker.data) v.data = (a ++ v ++ b).data := by
      have hpat : envMarker.data ++ name.data ++ closeMarker.data =
          (envPlaceholder name).data := by
        simp [envPlaceholder, String.data_append]
      rw [hpat, hs]
      have hp : (envPlaceholder name).data ≠ [] := by
        have hm : envMarker.data ≠ [] := by decide
        simp [envPlaceholder, String.data_append, hm]
      have ha : ∀ j < a.data.length,
          startsWithSub (envPlaceholder name).data
            ((a.data ++ ((envPlaceholder name).data ++ b.data)).drop j) = false := by
        intro j hj
        have hmin := (findSubstring_spec _ _ _ h1).2 j hj
        rw [hs] at hmin
        cases hsw : startsWithSub (envPlaceholder name).data
            ((a.data ++ ((envPlaceholder name).data ++ b.data)).drop j) with
        | false => rfl
        | true =>
          have hstart : startsWithSub envMarker.data
              ((a.data ++ ((envPlaceholder name).data ++ b.data)).drop j) = true := by
            have hdec : (envPlaceholder name).data =
                envMarker.data ++ (name.data ++ closeMarker.data) := by
              simp [envPlaceholder, String.data_append]
            exact startsWithSub_of_append _ _ _ (hdec ▸ hsw)
          rw [hstart] at hmin
          exact absurd hmin (by simp)
      have := replaceAll_single (envPlaceholder name).data v.data a.data b.data hp ha hbno
      rw [this]
      simp [String.data_append]
    simp only [resolveEnvPass, h1, h2]
    rw [hvar]
    simp only [henv]
    rw [envVarName_extract, hrepl]
  · intro henv
    simp only [resolveEnvPass, h1, h2]
    rw [hvar]
    simp [henv]

/-- A failing string value anywhere in a config mapping fails the whole
mapping's resolution. -/
theorem resolve_config_values_mem_error (env fc : String → Option String)
    (k s em : String) (hs : resolve_secret_string env fc s = .error em)
    (cfg : List (String × Json)) (hmem : (k, Json.str s) ∈ cfg) :
    ∃ msg, resolve_config_values env fc cfg = .error msg := by
  induction cfg with
  | nil => exact absurd hmem (List.not_mem_nil _)
  | cons kv rest ih =>
    obtain ⟨k', v'⟩ := kv
    rcases List.mem_cons.mp hmem with heq | hmem'
    · obtain ⟨hk, hv⟩ := Prod.mk.injEq .. ▸ heq
      subst hk
      rw [← hv]
      exact ⟨em, by simp [resolve_config_values, hs]⟩
    · obtain ⟨msg, hmsg⟩ := ih hmem'
      cases v' with
      | str s' =>
        cases hss : resolve_secret_string env fc s' with
        | error e => exact ⟨e, by simp [resolve_config_values, hss]⟩
        | ok r => exact ⟨msg, by simp [resolve_config_values, hss, hmsg]⟩
      | null => exact ⟨msg, by simp [resolve_config_values, hmsg]⟩
      | bool x => exact ⟨msg, by simp [resolve_config_values, hmsg]⟩
      | num x => exact ⟨msg, by simp [resolve_config_values, hmsg]⟩
      | arr x => exact ⟨msg, by simp [resolve_config_values, hmsg]⟩
      | obj x => exact ⟨msg, by simp [resolve_config_values, hmsg]⟩

/-- A failing handler anywhere in a handler list fails the whole list's
resolution. -/
theorem resolve_handlers_secrets_mem_error (env fc : String → Option String)
    (h : HandlerConfig) (em : String)
    (herr : resolve_handler_secrets env fc h = .error em)
    (handlers : List HandlerConfig) (hmem : h ∈ handlers) :
    ∃ msg, resolve_handlers_secrets env fc handlers = .error msg := by
  induction handlers with
  | nil => exact absurd hmem (List.not_mem_nil _)
  | cons h0 rest ih =>
    rcases List.mem_cons.mp hmem with heq | hmem'
    · subst heq
      exact ⟨em, by simp [resolve_handlers_secrets, herr]⟩
    · obtain ⟨msg, hmsg⟩ := ih hmem'
      cases hh0 : resolve_handler_secrets env fc h0 with
      | error e => exact ⟨e, by simp [resolve_handlers_secrets, hh0]⟩
      | ok h0' => exact ⟨msg, by simp [resolve_handlers_secrets, hh0, hmsg]⟩

/-- Claim C5: a string-typed handler-config value holding an `{{env.NAME}}`
placeholder resolves by substituting the variable's value in place of the
placeholder, and when the variable is unset the error fails the entire
configuration resolution (`Config::load`), not just that handler. The
hypotheses pin the placeholder down as the one the single-pass scan
finds: the `{{env.` marker first occurs right after `a`, the first `}}`
after it closes the name, and neither the full placeholder nor a
`{{file.` marker occurs in the rest. -/
theorem claim_c5_env_secret_substitution (env env2 fc : String → Option String)
    (a name v b : String)
    (h1 : findSubstring envMarker.data (a ++ envPlaceholder name ++ b).data = some a.length)
    (h2 : findSubstring closeMarker.data
        ((a ++ envPlaceholder name ++ b).data.drop a.length) = some (6 + name.length))
    (hbno : findSubstring (envPlaceholder name).data b.data = none)
    (hnofile : findSubstring fileMarker.data (a ++ v ++ b).data = none)
    (henv : env name = some v)
    (henv2 : env2 name = none) :
    resolve_secret_string env fc (a ++ envPlaceholder name ++ b) = .ok (a ++ v ++ b) ∧
    resolve_secret_string env2 fc (a ++ envPlaceholder name ++ b) =
      .error ("Environment variable not found: " ++ name) ∧
    (∀ (c : Config) (h : HandlerConfig) (k : String), h ∈ c.handlers →
      (k, Json.str (a ++ envPlaceholder name ++ b)) ∈ h.config →
      ∃ msg, Config.resolve_secrets env2 fc c = .error msg) := by
  have hok := (resolveEnvPass_single env a name b h1 h2 hbno).1 v henv
  have herr := (resolveEnvPass_single env2 a name b h1 h2 hbno).2 henv2
  have herrs : resolve_secret_string env2 fc (a ++ envPlaceholder name ++ b) =
      .error ("Environment variable not found: " ++ name) := by
    simp only [resolve_secret_string]
    rw [herr]
  refine ⟨?_, herrs, ?_⟩
  · simp only [resolve_secret_string]
    rw [hok]
    simp only [resolveFilePass]
    rw [hnofile]
  · intro c h k hh hkv
    obtain ⟨msg1, hmsg1⟩ := resolve_config_values_mem_error env2 fc k
      (a ++ envPlaceholder name ++ b) _ herrs h.config hkv
    have hhandler : resolve_handler_secrets env2 fc h = .error msg1 := by
      simp [resolve_handler_secrets, hmsg1]
    obtain ⟨msg2, hmsg2⟩ :=
      resolve_handlers_secrets_mem_error env2 fc h msg1 hhandler c.handlers hh
    exact ⟨msg2, by simp [Config.resolve_secrets, hmsg2]⟩

/-- An environment binding only `FOO=bar`. -/
def envFoo : String → Option String := fun n => if n == "FOO" then some "bar" else none

/-- An empty environment. -/
def envEmpty : String → Option String := fun _ => none

/-- An empty filesystem oracle. -/
def fcEmpty : String → Option String := fun _ => none

/-- A handler whose config carries the `x_{{env.FOO}}_y` secret value. -/
def hSecretHandler : HandlerConfig :=
  ⟨"h", "desktop", none, .Exact, [("token", Json.str ("x_" ++ envPlaceholder "FOO" ++ "_y"))]⟩

/-- A config holding the secret-carrying handler. -/
def cfgWithSecret : Config := ⟨[hSecretHandler], none⟩

/-- Witness for C5: `x_{{env.FOO}}_y` resolves to `x_bar_y` when `FOO=bar`
is set, and with `FOO` unset the whole configuration resolution fails. -/
theorem claim_c5_witness :
    resolve_secret_string envFoo fcEmpty ("x_" ++ envPlaceholder "FOO" ++ "_y") =
      .ok "x_bar_y" ∧
    (∃ msg, Config.resolve_secrets envEmpty fcEmpty cfgWithSecret = .error msg) := by
  have h := claim_c5_env_secret_substitution envFoo envEmpty fcEmpty "x_" "FOO" "bar" "_y"
    (by decide) (by decide) (by decide) (by decide) (by decide) rfl
  constructor
  · rw [h.1]
    rfl
  · exact h.2.2 cfgWithSecret hSecretHandler "token" (List.Mem.head _) (List.Mem.head _)

/-- Witness for C8 at the spec's concrete arrays. -/
theorem claim_c8_witness :
    values_match rxNone .Exact (.arr [.str "a", .str "b"]) (.arr [.str "a"]) = true ∧
    values_match rxNone .Exact (.arr [.str "b"]) (.arr [.str "a"]) = false :=
  ⟨(claim_c8_array_subset rxNone .Exact [] []).2.1,
   (claim_c8_array_subset rxNone .Exact [] []).2.2⟩
